import Mathlib

/-!
Verification of qperf (src/qperf.c) against its natural-language specification.
Each section embeds one cluster of source functions as executable Lean
definitions, translated directly from the C, and proves or refutes the
corresponding claims.
-/

namespace Qperf

/-! ## Parameter table (qperf.c lines 94-102, 274-325, 941-1032)

The PAR_INDEX enumeration is numeric in the source; the indices below follow
the order of the ParInfo initializer (qperf.c lines 295-325), which init_vars
checks against the enum.  A slot carries a 32-bit value or a string (the C
`ptr` points at one or the other depending on the type tag), the option name
last used to set it, and the set/used/inuse flags. -/

def P_NULL : ℕ := 0
def L_ACCESS_RECV : ℕ := 1
def R_ACCESS_RECV : ℕ := 2
def L_AFFINITY : ℕ := 3
def R_AFFINITY : ℕ := 4
def L_FLIP : ℕ := 5
def R_FLIP : ℕ := 6
def L_ID : ℕ := 7
def R_ID : ℕ := 8
def L_MSG_SIZE : ℕ := 9
def R_MSG_SIZE : ℕ := 10
def L_MTU_SIZE : ℕ := 11
def R_MTU_SIZE : ℕ := 12
def L_NO_MSGS : ℕ := 13
def R_NO_MSGS : ℕ := 14
def L_POLL_MODE : ℕ := 15
def R_POLL_MODE : ℕ := 16
def L_PORT : ℕ := 17
def R_PORT : ℕ := 18
def L_RATE : ℕ := 19
def R_RATE : ℕ := 20
def L_RD_ATOMIC : ℕ := 21
def R_RD_ATOMIC : ℕ := 22
def L_SOCK_BUF_SIZE : ℕ := 23
def R_SOCK_BUF_SIZE : ℕ := 24
def L_TIME : ℕ := 25
def R_TIME : ℕ := 26
def L_TIMEOUT : ℕ := 27
def R_TIMEOUT : ℕ := 28
def P_N : ℕ := 29

/-- One entry of the ParInfo table (struct PAR_INFO, qperf.c lines 94-102).
The C entry holds a `void *ptr` to the parameter value; here `val` is the
target of a 32-bit pointer and `str` the target of a string pointer. -/
structure PAR_INFO where
  val : ℕ
  str : String
  name : Option String
  set : Bool
  used : Bool
  inuse : Bool
deriving DecidableEq

/-- The ParInfo table, as a map from numeric PAR_INDEX to entry. -/
def ParState : Type := ℕ → PAR_INFO

/-- Update one table entry. -/
def updSlot (s : ParState) (i : ℕ) (p : PAR_INFO) : ParState :=
  fun j => if j = i then p else s j

/-- par_set (qperf.c lines 992-1008).  Returns the updated table and whether
the C function returned a non-null pointer (so the caller stores the value).
With a non-null name it records the name, sets the set flag and always
returns the slot; with a null name it sets used/inuse and returns null
exactly when a name was already recorded. -/
def par_set (s : ParState) (name : Option String) (index : ℕ) :
    ParState × Bool :=
  let p := s index
  if index = P_NULL then (s, false)
  else
    match name with
    | some nm => (updSlot s index { p with name := some nm, set := true }, true)
    | none =>
      let s2 := updSlot s index { p with used := true, inuse := true }
      if p.name.isSome then (s2, false) else (s2, true)

/-- setp_u32 (qperf.c lines 952-959): store a 32-bit value if par_set
returned a slot. -/
def setp_u32 (s : ParState) (name : Option String) (index : ℕ) (l : ℕ) :
    ParState :=
  let r := par_set s name index
  if r.2 then updSlot r.1 index { r.1 index with val := l } else r.1

/-- setp_str (qperf.c lines 965-974): store a string if par_set returned a
slot; error_die (modelled as none) when the string does not fit STRSIZE. -/
def setp_str (s : ParState) (name : Option String) (index : ℕ) (v : String)
    (STRSIZE : ℕ) : Option ParState :=
  let r := par_set s name index
  if r.2 then
    if STRSIZE ≤ v.length then none
    else some (updSlot r.1 index { r.1 index with str := v })
  else some r.1

/-- par_use (qperf.c lines 980-986). -/
def par_use (s : ParState) (index : ℕ) : ParState :=
  updSlot s index { s index with used := true, inuse := true }

/-- par_isset (qperf.c lines 1014-1018): a parameter counts as set when an
option name is recorded. -/
def par_isset (s : ParState) (index : ℕ) : Bool :=
  (s index).name.isSome

/-- The inuse-clearing loop at the top of client() (qperf.c
lines 1179-1180). -/
def clear_inuse (s : ParState) : ParState :=
  fun j => if j < P_N then { s j with inuse := false } else s j

/-- The parameter-table prologue of client() (qperf.c lines 1179-1190):
clear every inuse flag, default TIME to 2 when NO_MSGS is not user-set,
default both TIMEOUT slots to 5, and mark affinity and time used. -/
def client_prolog (s : ParState) : ParState :=
  let s1 := clear_inuse s
  let s2 := if par_isset s1 L_NO_MSGS then s1 else setp_u32 s1 none L_TIME 2
  let s3 := if par_isset s2 R_NO_MSGS then s2 else setp_u32 s2 none R_TIME 2
  let s4 := setp_u32 s3 none L_TIMEOUT 5
  let s5 := setp_u32 s4 none R_TIMEOUT 5
  let s6 := par_use s5 L_AFFINITY
  let s7 := par_use s6 R_AFFINITY
  let s8 := par_use s7 L_TIME
  par_use s8 R_TIME

/-- A table with every slot fresh: zero value, empty string, no name, no
flags.  Used as the concrete start state for witnesses. -/
def freshState : ParState :=
  fun _ => { val := 0, str := "", name := none, set := false,
             used := false, inuse := false }

theorem updSlot_same (s : ParState) (i : ℕ) (p : PAR_INFO) :
    (updSlot s i p) i = p := by simp [updSlot]

theorem updSlot_other (s : ParState) (i j : ℕ) (p : PAR_INFO)
    (h : j ≠ i) : (updSlot s i p) j = s j := by simp [updSlot, h]

theorem clear_inuse_name (s : ParState) (j : ℕ) :
    ((clear_inuse s) j).name = (s j).name := by
  by_cases h : j < P_N <;> simp [clear_inuse, h]

theorem clear_inuse_val (s : ParState) (j : ℕ) :
    ((clear_inuse s) j).val = (s j).val := by
  by_cases h : j < P_N <;> simp [clear_inuse, h]

theorem setp_u32_apply_other (s : ParState) (nm : Option String)
    (j v i : ℕ) (hij : i ≠ j) : (setp_u32 s nm j v) i = s i := by
  by_cases hz : j = P_NULL
  · cases nm <;> simp [setp_u32, par_set, hz]
  · cases nm with
    | none =>
      by_cases hname : (s j).name.isSome <;>
        simp [setp_u32, par_set, hz, hname, updSlot, hij]
    | some nm => simp [setp_u32, par_set, hz, updSlot, hij]

theorem setp_u32_none_name (s : ParState) (j v i : ℕ) :
    ((setp_u32 s none j v) i).name = (s i).name := by
  by_cases hij : i = j
  · subst hij
    by_cases hz : i = P_NULL
    · simp [setp_u32, par_set, hz]
    · by_cases hname : (s i).name.isSome <;>
        simp [setp_u32, par_set, hz, hname, updSlot]
  · rw [setp_u32_apply_other s none j v i hij]

theorem setp_u32_none_store (s : ParState) (j v : ℕ) (hz : ¬ j = P_NULL)
    (hname : (s j).name = none) : ((setp_u32 s none j v) j).val = v := by
  simp [setp_u32, par_set, hz, hname, updSlot]

theorem par_use_apply_other (s : ParState) (j i : ℕ) (hij : i ≠ j) :
    (par_use s j) i = s i := by simp [par_use, updSlot, hij]

theorem par_use_val (s : ParState) (j i : ℕ) :
    ((par_use s j) i).val = (s i).val := by
  by_cases hij : i = j
  · subst hij; simp [par_use, updSlot]
  · simp [par_use, updSlot, hij]

theorem par_use_name (s : ParState) (j i : ℕ) :
    ((par_use s j) i).name = (s i).name := by
  by_cases hij : i = j
  · subst hij; simp [par_use, updSlot]
  · simp [par_use, updSlot, hij]

/-! ## Wire codec (qperf.c lines 2476-2659)

Bytes are naturals below 256; a stream is a list of bytes.  enc_int writes
the low n bytes of a value little-endian; dec_int reads n bytes back.
Field widths are `sizeof` the REQ/STAT field types, which are declared in
qperf.h (not part of src/); they are kept as parameters, so the round-trip
theorems hold for every width assignment. -/

/-- enc_int (qperf.c lines 2638-2645): write the low `n` bytes of `l`,
least significant first. -/
def enc_int : ℕ → ℕ → List ℕ
  | _, 0 => []
  | l, n + 1 => l % 256 :: enc_int (l / 256) n

/-- dec_int (qperf.c lines 2651-2659): read `n` bytes little-endian,
masking each with 0xFF, and return the value and the remaining stream. -/
def dec_int : ℕ → List ℕ → ℕ × List ℕ
  | 0, bs => (0, bs)
  | _ + 1, [] => (0, [])
  | n + 1, b :: bs =>
    let r := dec_int n bs
    (b % 256 + 256 * r.1, r.2)

/-- enc_str (qperf.c lines 2616-2621): copy exactly `n` bytes. -/
def enc_str (s : List ℕ) (n : ℕ) : List ℕ := s.take n

/-- dec_str (qperf.c lines 2627-2632): read exactly `n` bytes. -/
def dec_str (n : ℕ) (bs : List ℕ) : List ℕ × List ℕ := (bs.take n, bs.drop n)

theorem dec_int_enc_int (n : ℕ) :
    ∀ (l : ℕ) (rest : List ℕ),
      dec_int n (enc_int l n ++ rest) = (l % 256 ^ n, rest) := by
  induction n with
  | zero => intro l rest; simp [enc_int, dec_int, Nat.mod_one]
  | succ n ih =>
    intro l rest
    have hsplit : l % 256 ^ (n + 1) = l % 256 + 256 * (l / 256 % 256 ^ n) := by
      have h1 : l = 256 * (l / 256) + l % 256 := (Nat.div_add_mod ..).symm
      have h2 : l / 256 = 256 ^ n * (l / 256 / 256 ^ n) + l / 256 % 256 ^ n :=
        (Nat.div_add_mod ..).symm
      have h3 : l % 256 + 256 * (l / 256 % 256 ^ n) < 256 ^ (n + 1) := by
        have hb : l % 256 < 256 := Nat.mod_lt _ (by norm_num)
        have hc : l / 256 % 256 ^ n < 256 ^ n :=
          Nat.mod_lt _ (Nat.pos_pow_of_pos _ (by norm_num))
        calc l % 256 + 256 * (l / 256 % 256 ^ n)
            ≤ 255 + 256 * (l / 256 % 256 ^ n) := by omega
          _ ≤ 255 + 256 * (256 ^ n - 1) := by
              have := Nat.le_sub_one_of_lt hc
              omega
          _ < 256 ^ (n + 1) := by
              have : 1 ≤ 256 ^ n := Nat.one_le_pow _ _ (by norm_num)
              rw [pow_succ]
              omega
      calc l % 256 ^ (n + 1)
          = (256 ^ (n + 1) * (l / 256 / 256 ^ n)
              + (l % 256 + 256 * (l / 256 % 256 ^ n))) % 256 ^ (n + 1) := by
            congr 1
            rw [pow_succ]
            nlinarith [h1, h2]
        _ = (l % 256 + 256 * (l / 256 % 256 ^ n)) % 256 ^ (n + 1) := by
            rw [Nat.mul_add_mod]
        _ = l % 256 + 256 * (l / 256 % 256 ^ n) := Nat.mod_eq_of_lt h3
    have hmask : l % 256 % 256 = l % 256 := Nat.mod_mod_of_dvd l dvd_rfl
    simp [enc_int, dec_int, ih, hmask, hsplit]

/-- dec_int inverts enc_int on any value that fits the field width. -/
theorem dec_int_enc_fit {l n : ℕ} (h : l < 256 ^ n) (rest : List ℕ) :
    dec_int n (enc_int l n ++ rest) = (l, rest) := by
  rw [dec_int_enc_int, Nat.mod_eq_of_lt h]

theorem dec_str_enc_str {s : List ℕ} {n : ℕ} (h : s.length = n)
    (rest : List ℕ) : dec_str n (enc_str s n ++ rest) = (s, rest) := by
  subst h
  simp [enc_str, dec_str, List.take_left, List.drop_left]

/-- Modelled from the spec: T_N is the number of tick categories (real,
user, nice, kernel, idle, iowait, irq, softirq, steal); the constant itself
is declared in qperf.h, which is not under src/. -/
def T_N : ℕ := 9

/-- Modelled from the spec: the REQ structure (its field list and order are
fixed by enc_req/dec_req in the source, qperf.c lines 2476-2522; the struct
declaration itself is in qperf.h).  Field values are naturals; `id` is the
raw byte content of the fixed-length id array. -/
structure REQ where
  ver_maj : ℕ
  ver_min : ℕ
  ver_inc : ℕ
  req_index : ℕ
  flip : ℕ
  access_recv : ℕ
  affinity : ℕ
  poll_mode : ℕ
  port : ℕ
  rd_atomic : ℕ
  timeout : ℕ
  msg_size : ℕ
  mtu_size : ℕ
  no_msgs : ℕ
  sock_buf_size : ℕ
  time : ℕ
  id : List ℕ

/-- The per-field byte widths (`sizeof` each REQ field in qperf.h). -/
structure REQ_W where
  ver_maj : ℕ
  ver_min : ℕ
  ver_inc : ℕ
  req_index : ℕ
  flip : ℕ
  access_recv : ℕ
  affinity : ℕ
  poll_mode : ℕ
  port : ℕ
  rd_atomic : ℕ
  timeout : ℕ
  msg_size : ℕ
  mtu_size : ℕ
  no_msgs : ℕ
  sock_buf_size : ℕ
  time : ℕ
  id : ℕ

/-- Every REQ field fits its declared wire width. -/
def reqFits (w : REQ_W) (r : REQ) : Prop :=
  r.ver_maj < 256 ^ w.ver_maj ∧ r.ver_min < 256 ^ w.ver_min ∧
  r.ver_inc < 256 ^ w.ver_inc ∧ r.req_index < 256 ^ w.req_index ∧
  r.flip < 256 ^ w.flip ∧ r.access_recv < 256 ^ w.access_recv ∧
  r.affinity < 256 ^ w.affinity ∧ r.poll_mode < 256 ^ w.poll_mode ∧
  r.port < 256 ^ w.port ∧ r.rd_atomic < 256 ^ w.rd_atomic ∧
  r.timeout < 256 ^ w.timeout ∧ r.msg_size < 256 ^ w.msg_size ∧
  r.mtu_size < 256 ^ w.mtu_size ∧ r.no_msgs < 256 ^ w.no_msgs ∧
  r.sock_buf_size < 256 ^ w.sock_buf_size ∧ r.time < 256 ^ w.time ∧
  r.id.length = w.id

/-- enc_req (qperf.c lines 2476-2496): fields in source order. -/
def enc_req (w : REQ_W) (r : REQ) : List ℕ :=
  enc_int r.ver_maj w.ver_maj ++ enc_int r.ver_min w.ver_min ++
  enc_int r.ver_inc w.ver_inc ++ enc_int r.req_index w.req_index ++
  enc_int r.flip w.flip ++ enc_int r.access_recv w.access_recv ++
  enc_int r.affinity w.affinity ++ enc_int r.poll_mode w.poll_mode ++
  enc_int r.port w.port ++ enc_int r.rd_atomic w.rd_atomic ++
  enc_int r.timeout w.timeout ++ enc_int r.msg_size w.msg_size ++
  enc_int r.mtu_size w.mtu_size ++ enc_int r.no_msgs w.no_msgs ++
  enc_int r.sock_buf_size w.sock_buf_size ++ enc_int r.time w.time ++
  enc_str r.id w.id

/-- dec_req (qperf.c lines 2502-2522): fields in source order. -/
def dec_req (w : REQ_W) (bs : List ℕ) : REQ × List ℕ :=
  let p1 := dec_int w.ver_maj bs
  let p2 := dec_int w.ver_min p1.2
  let p3 := dec_int w.ver_inc p2.2
  let p4 := dec_int w.req_index p3.2
  let p5 := dec_int w.flip p4.2
  let p6 := dec_int w.access_recv p5.2
  let p7 := dec_int w.affinity p6.2
  let p8 := dec_int w.poll_mode p7.2
  let p9 := dec_int w.port p8.2
  let p10 := dec_int w.rd_atomic p9.2
  let p11 := dec_int w.timeout p10.2
  let p12 := dec_int w.msg_size p11.2
  let p13 := dec_int w.mtu_size p12.2
  let p14 := dec_int w.no_msgs p13.2
  let p15 := dec_int w.sock_buf_size p14.2
  let p16 := dec_int w.time p15.2
  let p17 := dec_str w.id p16.2
  (⟨p1.1, p2.1, p3.1, p4.1, p5.1, p6.1, p7.1, p8.1, p9.1, p10.1, p11.1,
    p12.1, p13.1, p14.1, p15.1, p16.1, p17.1⟩, p17.2)

/-- Modelled from the spec: the USTAT structure (field list and order fixed
by enc_ustat/dec_ustat, qperf.c lines 2572-2590; declaration in qperf.h). -/
structure USTAT where
  no_bytes : ℕ
  no_msgs : ℕ
  no_errs : ℕ

/-- Byte widths of the USTAT fields. -/
structure USTAT_W where
  no_bytes : ℕ
  no_msgs : ℕ
  no_errs : ℕ

def ustatFits (w : USTAT_W) (u : USTAT) : Prop :=
  u.no_bytes < 256 ^ w.no_bytes ∧ u.no_msgs < 256 ^ w.no_msgs ∧
  u.no_errs < 256 ^ w.no_errs

/-- enc_ustat (qperf.c lines 2572-2578). -/
def enc_ustat (w : USTAT_W) (u : USTAT) : List ℕ :=
  enc_int u.no_bytes w.no_bytes ++ enc_int u.no_msgs w.no_msgs ++
  enc_int u.no_errs w.no_errs

/-- dec_ustat (qperf.c lines 2584-2590). -/
def dec_ustat (w : USTAT_W) (bs : List ℕ) : USTAT × List ℕ :=
  let p1 := dec_int w.no_bytes bs
  let p2 := dec_int w.no_msgs p1.2
  let p3 := dec_int w.no_errs p2.2
  (⟨p1.1, p2.1, p3.1⟩, p3.2)

/-- Modelled from the spec: the STAT structure (field list and order fixed
by enc_stat/dec_stat, qperf.c lines 2529-2566; declaration in qperf.h).
The tick arrays have length T_N. -/
structure STAT where
  no_cpus : ℕ
  no_ticks : ℕ
  max_cqes : ℕ
  time_s : List ℕ
  time_e : List ℕ
  s : USTAT
  r : USTAT
  rem_s : USTAT
  rem_r : USTAT

/-- Byte widths of the STAT scalar fields; `clock` is the width of one
CLOCK tick counter. -/
structure STAT_W where
  no_cpus : ℕ
  no_ticks : ℕ
  max_cqes : ℕ
  clock : ℕ
  ustat : USTAT_W

def statFits (w : STAT_W) (st : STAT) : Prop :=
  st.no_cpus < 256 ^ w.no_cpus ∧ st.no_ticks < 256 ^ w.no_ticks ∧
  st.max_cqes < 256 ^ w.max_cqes ∧
  st.time_s.length = T_N ∧ (∀ t ∈ st.time_s, t < 256 ^ w.clock) ∧
  st.time_e.length = T_N ∧ (∀ t ∈ st.time_e, t < 256 ^ w.clock) ∧
  ustatFits w.ustat st.s ∧ ustatFits w.ustat st.r ∧
  ustatFits w.ustat st.rem_s ∧ ustatFits w.ustat st.rem_r

/-- The tick-array loop of enc_stat: each entry encoded in order. -/
def enc_clocks (w : ℕ) (ts : List ℕ) : List ℕ :=
  (ts.map (fun t => enc_int t w)).flatten

/-- The tick-array loop of dec_stat: read `n` tick counters. -/
def dec_clocks (w : ℕ) : ℕ → List ℕ → List ℕ × List ℕ
  | 0, bs => ([], bs)
  | n + 1, bs =>
    let p := dec_int w bs
    let q := dec_clocks w n p.2
    (p.1 :: q.1, q.2)

/-- enc_stat (qperf.c lines 2529-2544). -/
def enc_stat (w : STAT_W) (st : STAT) : List ℕ :=
  enc_int st.no_cpus w.no_cpus ++ enc_int st.no_ticks w.no_ticks ++
  enc_int st.max_cqes w.max_cqes ++
  enc_clocks w.clock st.time_s ++ enc_clocks w.clock st.time_e ++
  enc_ustat w.ustat st.s ++ enc_ustat w.ustat st.r ++
  enc_ustat w.ustat st.rem_s ++ enc_ustat w.ustat st.rem_r

/-- dec_stat (qperf.c lines 2550-2566). -/
def dec_stat (w : STAT_W) (bs : List ℕ) : STAT × List ℕ :=
  let p1 := dec_int w.no_cpus bs
  let p2 := dec_int w.no_ticks p1.2
  let p3 := dec_int w.max_cqes p2.2
  let p4 := dec_clocks w.clock T_N p3.2
  let p5 := dec_clocks w.clock T_N p4.2
  let p6 := dec_ustat w.ustat p5.2
  let p7 := dec_ustat w.ustat p6.2
  let p8 := dec_ustat w.ustat p7.2
  let p9 := dec_ustat w.ustat p8.2
  (⟨p1.1, p2.1, p3.1, p4.1, p5.1, p6.1, p7.1, p8.1, p9.1⟩, p9.2)

theorem dec_clocks_enc_clocks {w : ℕ} :
    ∀ (ts : List ℕ), (∀ t ∈ ts, t < 256 ^ w) → ∀ (rest : List ℕ),
      dec_clocks w ts.length (enc_clocks w ts ++ rest) = (ts, rest) := by
  intro ts
  induction ts with
  | nil => intro _ rest; simp [enc_clocks, dec_clocks]
  | cons t ts ih =>
    intro h rest
    have ht : t < 256 ^ w := h t (by simp)
    have hts : ∀ x ∈ ts, x < 256 ^ w := fun x hx => h x (by simp [hx])
    have hstep : enc_clocks w (t :: ts) ++ rest
        = enc_int t w ++ (enc_clocks w ts ++ rest) := by
      simp [enc_clocks]
    rw [hstep, List.length_cons]
    simp [dec_clocks, dec_int_enc_fit ht, ih hts rest]

theorem dec_ustat_enc_ustat {w : USTAT_W} {u : USTAT}
    (h : ustatFits w u) (rest : List ℕ) :
    dec_ustat w (enc_ustat w u ++ rest) = (u, rest) := by
  obtain ⟨h1, h2, h3⟩ := h
  simp [enc_ustat, dec_ustat, dec_int_enc_fit, h1, h2, h3,
    List.append_assoc]

theorem dec_req_enc_req {w : REQ_W} {r : REQ} (h : reqFits w r)
    (rest : List ℕ) : dec_req w (enc_req w r ++ rest) = (r, rest) := by
  obtain ⟨h1, h2, h3, h4, h5, h6, h7, h8, h9, h10, h11, h12, h13, h14,
    h15, h16, h17⟩ := h
  have hid : ∀ X, dec_str w.id (enc_str r.id w.id ++ X) = (r.id, X) :=
    fun X => dec_str_enc_str h17 X
  simp [dec_req, enc_req, List.append_assoc, dec_int_enc_fit, h1, h2, h3,
    h4, h5, h6, h7, h8, h9, h10, h11, h12, h13, h14, h15, h16, hid]

theorem dec_stat_enc_stat {w : STAT_W} {st : STAT} (h : statFits w st)
    (rest : List ℕ) : dec_stat w (enc_stat w st ++ rest) = (st, rest) := by
  obtain ⟨h1, h2, h3, hls, hbs, hle, hbe, hu1, hu2, hu3, hu4⟩ := h
  have hcs : ∀ X, dec_clocks w.clock T_N (enc_clocks w.clock st.time_s ++ X)
      = (st.time_s, X) := fun X => by
    rw [← hls]; exact dec_clocks_enc_clocks st.time_s hbs X
  have hce : ∀ X, dec_clocks w.clock T_N (enc_clocks w.clock st.time_e ++ X)
      = (st.time_e, X) := fun X => by
    rw [← hle]; exact dec_clocks_enc_clocks st.time_e hbe X
  simp [dec_stat, enc_stat, List.append_assoc, dec_int_enc_fit, h1, h2, h3,
    hcs, hce, dec_ustat_enc_ustat, hu1, hu2, hu3, hu4]

/-- Claim C2: for every Req whose fields fit their declared wire widths,
decoding the byte stream produced by encoding it yields the same Req
bit-for-bit, and the same round-trip holds for Stat and UStat. -/
theorem wire_roundtrip (wr : REQ_W) (r : REQ) (ws : STAT_W) (st : STAT)
    (wu : USTAT_W) (u : USTAT) (hr : reqFits wr r) (hs : statFits ws st)
    (hu : ustatFits wu u) :
    dec_req wr (enc_req wr r) = (r, []) ∧
    dec_stat ws (enc_stat ws st) = (st, []) ∧
    dec_ustat wu (enc_ustat wu u) = (u, []) := by
  refine ⟨?_, ?_, ?_⟩
  · simpa using dec_req_enc_req hr []
  · simpa using dec_stat_enc_stat hs []
  · simpa using dec_ustat_enc_ustat hu []

/-- Witness for C2: the round-trip at one concrete request, statistics
record, and counter triple, with concrete field widths. -/
theorem wire_roundtrip_witness :
    reqFits ⟨1, 1, 1, 2, 4, 4, 4, 4, 4, 4, 4, 4, 4, 8, 4, 4, 3⟩
      ⟨0, 2, 0, 6, 1, 0, 2, 1, 19765, 3, 5, 4096, 1024, 10, 32768, 2,
        [113, 112, 0]⟩ ∧
    statFits ⟨2, 4, 4, 8, ⟨8, 8, 4⟩⟩
      ⟨4, 100, 77, [1, 2, 3, 4, 5, 6, 7, 8, 9], [9, 8, 7, 6, 5, 4, 3, 2, 1],
        ⟨1000, 10, 0⟩, ⟨2000, 20, 1⟩, ⟨3000, 30, 2⟩, ⟨4000, 40, 3⟩⟩ ∧
    ustatFits ⟨8, 8, 4⟩ ⟨123456, 789, 0⟩ ∧
    (dec_req ⟨1, 1, 1, 2, 4, 4, 4, 4, 4, 4, 4, 4, 4, 8, 4, 4, 3⟩
        (enc_req ⟨1, 1, 1, 2, 4, 4, 4, 4, 4, 4, 4, 4, 4, 8, 4, 4, 3⟩
          ⟨0, 2, 0, 6, 1, 0, 2, 1, 19765, 3, 5, 4096, 1024, 10, 32768, 2,
            [113, 112, 0]⟩)
      = (⟨0, 2, 0, 6, 1, 0, 2, 1, 19765, 3, 5, 4096, 1024, 10, 32768, 2,
          [113, 112, 0]⟩, []) ∧
    dec_stat ⟨2, 4, 4, 8, ⟨8, 8, 4⟩⟩
        (enc_stat ⟨2, 4, 4, 8, ⟨8, 8, 4⟩⟩
          ⟨4, 100, 77, [1, 2, 3, 4, 5, 6, 7, 8, 9],
            [9, 8, 7, 6, 5, 4, 3, 2, 1], ⟨1000, 10, 0⟩, ⟨2000, 20, 1⟩,
            ⟨3000, 30, 2⟩, ⟨4000, 40, 3⟩⟩)
      = (⟨4, 100, 77, [1, 2, 3, 4, 5, 6, 7, 8, 9],
          [9, 8, 7, 6, 5, 4, 3, 2, 1], ⟨1000, 10, 0⟩, ⟨2000, 20, 1⟩,
          ⟨3000, 30, 2⟩, ⟨4000, 40, 3⟩⟩, []) ∧
    dec_ustat ⟨8, 8, 4⟩ (enc_ustat ⟨8, 8, 4⟩ ⟨123456, 789, 0⟩)
      = (⟨123456, 789, 0⟩, [])) := by
  refine ⟨by unfold reqFits; decide, by unfold statFits ustatFits T_N; decide,
    by unfold ustatFits; decide, ?_⟩
  exact wire_roundtrip _ _ _ _ _ _ (by unfold reqFits; decide)
    (by unfold statFits ustatFits T_N; decide) (by unfold ustatFits; decide)

/-! ## Framed, deadline-bounded I/O (qperf.c lines 1384-1437)

send_recv_mesg loops until `len` reaches zero.  Each iteration observes the
environment: the current time (get_seconds), whether select succeeded,
whether the descriptor was reported ready, and the read/write return value.
These observations form a trace consumed one entry per iteration; `etime`
is the absolute deadline computed at entry.  The model returns the error
family together with the number of bytes still untransferred, or `none` if
the trace is exhausted while the loop would continue. -/

/-- The possible exits of send_recv_mesg: success, the timed-out error, a
select failure, a read/write failure, or the peer-closed error. -/
inductive XferResult where
  | ok
  | timedOut
  | selectFailed
  | ioFailed
  | peerClosed
deriving DecidableEq

/-- One loop iteration's view of the environment. -/
structure XferStep where
  now : ℚ
  selOk : Bool
  ready : Bool
  ioRes : ℤ
deriving DecidableEq

/-- send_recv_mesg (qperf.c lines 1384-1437), with the environment as an
explicit trace.  Returns the exit kind and the remaining byte count. -/
def send_recv_mesg (etime : ℚ) : List XferStep → ℤ → Option (XferResult × ℤ)
  | [], len => if len = 0 then some (XferResult.ok, len) else none
  | e :: rest, len =>
    if len = 0 then some (XferResult.ok, len)
    else if etime - e.now ≤ 0 then some (XferResult.timedOut, len)
    else if ¬ e.selOk then some (XferResult.selectFailed, len)
    else if ¬ e.ready then send_recv_mesg etime rest len
    else if e.ioRes < 0 then some (XferResult.ioFailed, len)
    else if e.ioRes = 0 then some (XferResult.peerClosed, len)
    else send_recv_mesg etime rest (len - e.ioRes)

/-- Claim C3: send_recv_mesg returns success only with zero bytes left
untransferred (never partial success), and any iteration entered with the
deadline already passed fails with the timed-out error. -/
theorem send_recv_mesg_exact (etime : ℚ) (len : ℤ) (steps : List XferStep) :
    (∀ rem, send_recv_mesg etime steps len = some (XferResult.ok, rem) →
      rem = 0) ∧
    (∀ e rest, steps = e :: rest → len ≠ 0 → etime - e.now ≤ 0 →
      send_recv_mesg etime steps len = some (XferResult.timedOut, len)) := by
  constructor
  · intro rem
    induction steps generalizing len with
    | nil =>
      intro h
      simp only [send_recv_mesg] at h
      split_ifs at h with h0; simp at h
      omega
    | cons e rest ih =>
      intro h
      simp only [send_recv_mesg] at h
      split_ifs at h with h0 h1 h2 h3 h4 h5 <;>
        first
          | exact ih len h
          | exact ih (len - e.ioRes) h
          | (simp at h; omega)
          | simp at h
  · intro e rest hsteps hl ht
    subst hsteps
    simp only [send_recv_mesg]
    simp [hl, ht]

/-- Witness for C3: a two-chunk transfer of five bytes succeeds with zero
bytes remaining, and an iteration whose remaining time is negative fails
with the timed-out error. -/
theorem send_recv_mesg_exact_witness :
    (send_recv_mesg 10 [⟨1, true, true, 3⟩, ⟨2, true, true, 2⟩] 5
        = some (XferResult.ok, 0) →
      (0 : ℤ) = 0) ∧
    ([(⟨11, true, true, 3⟩ : XferStep)] = [⟨11, true, true, 3⟩] →
      (5 : ℤ) ≠ 0 → (10 : ℚ) - 11 ≤ 0 →
      send_recv_mesg 10 [⟨11, true, true, 3⟩] 5
        = some (XferResult.timedOut, 5)) ∧
    send_recv_mesg 10 [⟨1, true, true, 3⟩, ⟨2, true, true, 2⟩] 5
      = some (XferResult.ok, 0) := by
  refine ⟨(send_recv_mesg_exact 10 5 _).1 0,
    fun _ => (send_recv_mesg_exact 10 5 _).2 ⟨11, true, true, 3⟩ [] rfl,
    ?_⟩
  norm_num [send_recv_mesg]

/-! ## Server version gate (qperf.c lines 64-66, 1050-1071)

On a (ver_maj, ver_min) mismatch the server builds the message
`upgrade %s from %d.%d.%d to %d.%d.%d`, then continues its accept loop.
The gate below returns `none` when the request is accepted and the emitted
message when it is rejected. -/

def VER_MAJ : ℕ := 0
def VER_MIN : ℕ := 2
def VER_INC : ℕ := 0

/-- The printf rendering of the upgrade message (qperf.c line 1057). -/
def upgrade_message (low : String) (lmaj lmin linc hmaj hmin hinc : ℕ) :
    String :=
  "upgrade " ++ low ++ " from " ++ toString lmaj ++ "." ++ toString lmin
    ++ "." ++ toString linc ++ " to " ++ toString hmaj ++ "."
    ++ toString hmin ++ "." ++ toString hinc

/-- The version check of server() (qperf.c lines 1050-1071).  The h-
variables start as the request's version and the l-variables as the
server's own; when the server version is the higher one they are swapped
and `low` becomes "server". -/
def server_version_gate (rmaj rmin rinc : ℕ) : Option String :=
  if rmaj = VER_MAJ ∧ rmin = VER_MIN then none
  else if VER_MAJ > rmaj ∨ (VER_MAJ = rmaj ∧ VER_MIN > rmin) then
    some (upgrade_message "server" rmaj rmin rinc VER_MAJ VER_MIN VER_INC)
  else
    some (upgrade_message "client" VER_MAJ VER_MIN VER_INC rmaj rmin rinc)

/-- Claim C4, evaluated at the failing input: a request from a client at
version 0.1.0 against the 0.2.0 server is rejected, but the emitted
message is `upgrade server from 0.1.0 to 0.2.0`, naming the up-to-date
side, not `upgrade client from 0.1.0 to 0.2.0` as the claim states. -/
theorem version_gate_names_wrong_side :
    server_version_gate 0 1 0 = some "upgrade server from 0.1.0 to 0.2.0" ∧
    server_version_gate 0 1 0 ≠ some "upgrade client from 0.1.0 to 0.2.0" ∧
    server_version_gate 0 2 0 = none := by
  refine ⟨by decide, by decide, by decide⟩

/-! ## Client exit status (qperf.c lines 240, 472-479, 1174-1208)

ExitStatus starts at 0; each client test run sets it to 1 when its
Successful flag is false and never writes it otherwise; main returns it.
A command line may run several tests (each bare test-name token after the
host runs one).  The fold below threads ExitStatus through the sequence of
per-test Successful outcomes. -/

/-- The ExitStatus accumulation over one command line's test runs
(qperf.c lines 1205-1206 inside client, returned by main at line 478). -/
def runTests (outcomes : List Bool) : ℕ :=
  outcomes.foldl (fun st succ => if succ then st else 1) 0

/-- Counterexample to claim C5: a run whose first test fails and whose
last test succeeds exits with status 1, although the last test's
Successful flag was true. -/
theorem runTests_last_not_decisive :
    runTests [false, true] = 1 ∧ [false, true].getLast? = some true ∧
    runTests [false, true] ≠ 0 := by decide

theorem runTests_foldl_one (l : List Bool) :
    l.foldl (fun st succ => if succ then st else 1) 1 = 1 := by
  induction l with
  | nil => rfl
  | cons b l ih => cases b <;> simpa using ih

/-- Claim C5 as amended: the process exit status is 0 when every test's
Successful flag was true and 1 otherwise; once a test fails, the status
stays 1 regardless of later tests. -/
theorem runTests_all_decisive (outcomes : List Bool) :
    runTests outcomes = if outcomes.all (fun b => b) then 0 else 1 := by
  induction outcomes with
  | nil => rfl
  | cons b l ih =>
    cases b
    · simpa [runTests, List.all_cons] using runTests_foldl_one l
    · simpa [runTests, List.all_cons] using ih

/-! ## Claims about the parameter table -/

/-- Counterexample to claim C1: after `setp_u32` records the option name
`--msg_size` on the L_MSG_SIZE slot with value 1, a second user-level call
with name `-m` and value 7 stores 7 anyway -- the claim says a slot whose
name is already recorded stores nothing (first wins), so the value should
have stayed 1. -/
theorem setp_second_user_assignment_overwrites :
    ((setp_u32 freshState (some "--msg_size") L_MSG_SIZE 1) L_MSG_SIZE).name
      = some "--msg_size" ∧
    ((setp_u32 (setp_u32 freshState (some "--msg_size") L_MSG_SIZE 1)
        (some "-m") L_MSG_SIZE 7) L_MSG_SIZE).val = 7 ∧
    ((setp_u32 (setp_u32 freshState (some "--msg_size") L_MSG_SIZE 1)
        (some "-m") L_MSG_SIZE 7) L_MSG_SIZE).val ≠ 1 := by
  refine ⟨rfl, rfl, by decide⟩

/-- Claim C1 as amended: for setp_u32 or setp_str with a non-null option
name and a real parameter index, the call always stores the value, records
the name, and sets the set flag, whether or not a name was already
recorded (the last assignment wins); the first-assignment-wins rule
applies only to null-name internal defaults. -/
theorem setp_nonnull_stores (s : ParState) (nm : String) (i v : ℕ)
    (vs : String) (STRSIZE : ℕ) (hi : i ≠ P_NULL)
    (hlen : vs.length < STRSIZE) :
    ((setp_u32 s (some nm) i v) i).val = v ∧
    ((setp_u32 s (some nm) i v) i).name = some nm ∧
    ((setp_u32 s (some nm) i v) i).set = true ∧
    ∃ s2, setp_str s (some nm) i vs STRSIZE = some s2 ∧
      (s2 i).str = vs ∧ (s2 i).name = some nm ∧ (s2 i).set = true := by
  have hns : ¬ STRSIZE ≤ vs.length := by omega
  simp [setp_u32, setp_str, par_set, updSlot, hi, hns]

/-- Witness for the amended C1 at the L_TIME slot of a fresh table. -/
theorem setp_nonnull_stores_witness :
    L_TIME ≠ P_NULL ∧ ("abc" : String).length < 32 ∧
    (((setp_u32 freshState (some "--time") L_TIME 3) L_TIME).val = 3 ∧
    ((setp_u32 freshState (some "--time") L_TIME 3) L_TIME).name
      = some "--time" ∧
    ((setp_u32 freshState (some "--time") L_TIME 3) L_TIME).set = true ∧
    ∃ s2, setp_str freshState (some "--time") L_TIME "abc" 32 = some s2 ∧
      (s2 L_TIME).str = "abc" ∧ (s2 L_TIME).name = some "--time" ∧
      (s2 L_TIME).set = true) := by
  exact ⟨by decide, by decide,
    setp_nonnull_stores freshState "--time" L_TIME 3 "abc" 32 (by decide)
      (by decide)⟩

/-- Claim C10: a setp_u32 or setp_str call with a null option name (an
internal default) on a real parameter index sets the slot's used and inuse
flags, and when the slot already carries a user-recorded option name the
stored value is left unchanged -- internal defaults never overwrite a user
assignment. -/
theorem setp_null_internal_default (s : ParState) (i v : ℕ) (vs : String)
    (STRSIZE : ℕ) (hi : i ≠ P_NULL) :
    ((setp_u32 s none i v) i).used = true ∧
    ((setp_u32 s none i v) i).inuse = true ∧
    ((s i).name.isSome = true → ((setp_u32 s none i v) i).val = (s i).val) ∧
    (∀ s2, setp_str s none i vs STRSIZE = some s2 →
      (s2 i).used = true ∧ (s2 i).inuse = true ∧
      ((s i).name.isSome = true → (s2 i).str = (s i).str)) := by
  by_cases hn : (s i).name.isSome
  · refine ⟨?_, ?_, fun _ => ?_, fun s2 h2 => ?_⟩
    · simp [setp_u32, par_set, updSlot, hi, hn]
    · simp [setp_u32, par_set, updSlot, hi, hn]
    · simp [setp_u32, par_set, updSlot, hi, hn]
    · simp [setp_str, par_set, updSlot, hi, hn] at h2
      subst h2
      simp [updSlot]
  · simp only [Bool.not_eq_true] at hn
    refine ⟨by simp [setp_u32, par_set, updSlot, hi, hn], by
      simp [setp_u32, par_set, updSlot, hi, hn], by simp [hn], ?_⟩
    intro s2 h2
    by_cases hsz : STRSIZE ≤ vs.length
    · simp [setp_str, par_set, updSlot, hi, hn, hsz] at h2
    · simp [setp_str, par_set, updSlot, hi, hn, hsz] at h2
      subst h2
      simp [updSlot, hn]

/-- Witness for C10 at a slot carrying the user assignment `--time 7`:
the internal default does not change the stored 7. -/
theorem setp_null_internal_default_witness :
    L_TIME ≠ P_NULL ∧
    (((setp_u32 (setp_u32 freshState (some "--time") L_TIME 7) none
        L_TIME 2) L_TIME).used = true ∧
    ((setp_u32 (setp_u32 freshState (some "--time") L_TIME 7) none
        L_TIME 2) L_TIME).inuse = true ∧
    (((setp_u32 freshState (some "--time") L_TIME 7) L_TIME).name.isSome
        = true →
      ((setp_u32 (setp_u32 freshState (some "--time") L_TIME 7) none
        L_TIME 2) L_TIME).val
        = ((setp_u32 freshState (some "--time") L_TIME 7) L_TIME).val) ∧
    (∀ s2, setp_str (setp_u32 freshState (some "--time") L_TIME 7) none
        L_TIME "x" 32 = some s2 →
      (s2 L_TIME).used = true ∧ (s2 L_TIME).inuse = true ∧
      (((setp_u32 freshState (some "--time") L_TIME 7) L_TIME).name.isSome
          = true →
        (s2 L_TIME).str
          = ((setp_u32 freshState (some "--time") L_TIME 7) L_TIME).str))) :=
  ⟨by decide,
    setp_null_internal_default (setp_u32 freshState (some "--time") L_TIME 7)
      L_TIME 2 "x" 32 (by decide)⟩

/-- Claim C6: at client test start, when neither L_NO_MSGS nor R_NO_MSGS
was user-set, the prologue assigns the internal default TIME = 2 to both
TIME slots and the internal default TIMEOUT = 5 to both TIMEOUT slots;
being internal defaults, they take effect on every slot not already
user-assigned. -/
theorem client_prolog_defaults (s : ParState)
    (hl : par_isset s L_NO_MSGS = false)
    (hr : par_isset s R_NO_MSGS = false) :
    ((s L_TIME).name = none → (client_prolog s L_TIME).val = 2) ∧
    ((s R_TIME).name = none → (client_prolog s R_TIME).val = 2) ∧
    ((s L_TIMEOUT).name = none → (client_prolog s L_TIMEOUT).val = 5) ∧
    ((s R_TIMEOUT).name = none → (client_prolog s R_TIMEOUT).val = 5) := by
  have hl2 : (s 13).name = none := by simpa [par_isset, L_NO_MSGS] using hl
  have hr2 : (s 14).name = none := by simpa [par_isset, R_NO_MSGS] using hr
  refine ⟨fun h1 => ?_, fun h2 => ?_, fun h3 => ?_, fun h4 => ?_⟩
  · have h1x : (s 25).name = none := h1
    simp [client_prolog, par_isset, apply_ite, ite_apply, clear_inuse_name,
      clear_inuse_val, par_use_apply_other, par_use_val, par_use_name,
      setp_u32_apply_other, setp_u32_none_name, setp_u32_none_store,
      L_TIME, R_TIME, L_TIMEOUT, R_TIMEOUT, L_NO_MSGS, R_NO_MSGS,
      L_AFFINITY, R_AFFINITY, P_NULL, P_N, hl2, hr2, h1x]
  · have h2x : (s 26).name = none := h2
    simp [client_prolog, par_isset, apply_ite, ite_apply, clear_inuse_name,
      clear_inuse_val, par_use_apply_other, par_use_val, par_use_name,
      setp_u32_apply_other, setp_u32_none_name, setp_u32_none_store,
      L_TIME, R_TIME, L_TIMEOUT, R_TIMEOUT, L_NO_MSGS, R_NO_MSGS,
      L_AFFINITY, R_AFFINITY, P_NULL, P_N, hl2, hr2, h2x]
  · have h3x : (s 27).name = none := h3
    simp [client_prolog, par_isset, apply_ite, ite_apply, clear_inuse_name,
      clear_inuse_val, par_use_apply_other, par_use_val, par_use_name,
      setp_u32_apply_other, setp_u32_none_name, setp_u32_none_store,
      L_TIME, R_TIME, L_TIMEOUT, R_TIMEOUT, L_NO_MSGS, R_NO_MSGS,
      L_AFFINITY, R_AFFINITY, P_NULL, P_N, hl2, hr2, h3x]
  · have h4x : (s 28).name = none := h4
    simp [client_prolog, par_isset, apply_ite, ite_apply, clear_inuse_name,
      clear_inuse_val, par_use_apply_other, par_use_val, par_use_name,
      setp_u32_apply_other, setp_u32_none_name, setp_u32_none_store,
      L_TIME, R_TIME, L_TIMEOUT, R_TIMEOUT, L_NO_MSGS, R_NO_MSGS,
      L_AFFINITY, R_AFFINITY, P_NULL, P_N, hl2, hr2, h4x]

/-- Witness for C6 on a fresh parameter table. -/
theorem client_prolog_defaults_witness :
    par_isset freshState L_NO_MSGS = false ∧
    par_isset freshState R_NO_MSGS = false ∧
    (((freshState L_TIME).name = none →
        (client_prolog freshState L_TIME).val = 2) ∧
      ((freshState R_TIME).name = none →
        (client_prolog freshState R_TIME).val = 2) ∧
      ((freshState L_TIMEOUT).name = none →
        (client_prolog freshState L_TIMEOUT).val = 5) ∧
      ((freshState R_TIMEOUT).name = none →
        (client_prolog freshState R_TIMEOUT).val = 5)) :=
  ⟨by decide, by decide,
    client_prolog_defaults freshState (by decide) (by decide)⟩

/-! ## Size arguments (qperf.c lines 848-882)

arg_size parses its token with strtold and then dispatches on the suffix
text.  strtold is modelled exactly over the rationals on the decimal forms
the option grammar uses: an optional minus sign, integer digits, an
optional point and fraction digits (every value arising in the claims is
exactly representable).  Truncation of a non-negative long double to long
is the floor.  The products 1000*1000 etc. are written constant-folded, as
the C compiler folds them. -/

def digitVal (c : Char) : ℕ := c.toNat - 48

/-- Value of a digit run, most significant first. -/
def digitsVal (ds : List Char) : ℕ :=
  ds.foldl (fun a c => 10 * a + digitVal c) 0

/-- The number format consumed by strtold on a size token: digits,
optionally a point and more digits.  Returns the value and the first
unconsumed character onwards; on no conversion, returns 0 and the whole
input. -/
def strtold_num (cs : List Char) : ℚ × List Char :=
  let ip := cs.takeWhile Char.isDigit
  let cs2 := cs.dropWhile Char.isDigit
  if cs2.head? = some '.' then
    let cs3 := cs2.tail
    let fp := cs3.takeWhile Char.isDigit
    let cs4 := cs3.dropWhile Char.isDigit
    if ip = [] ∧ fp = [] then (0, cs)
    else ((digitsVal ip : ℚ) + (digitsVal fp : ℚ) / 10 ^ fp.length, cs4)
  else if ip = [] then (0, cs) else ((digitsVal ip : ℚ), cs2)

/-- strtold with an optional leading minus sign. -/
def strtold_model (cs : List Char) : ℚ × List Char :=
  if cs.head? = some '-' then
    let r := strtold_num cs.tail
    if r.2 = cs.tail then (0, cs) else (-r.1, r.2)
  else strtold_num cs

/-- arg_size (qperf.c lines 848-882) on the token text: parse the number,
reject negatives, then match the suffix; k/kb, m/mb, g/gb are decimal and
K/kib, M/mib, G/gib are binary; the result is truncated to long. -/
def arg_size_chars (cs : List Char) : Option ℤ :=
  let r := strtold_model cs
  let d := r.1
  let p := r.2
  if d < 0 then none
  else if p = [] then some ⌊d⌋
  else if p = ['k', 'b'] ∨ p = ['k'] then some ⌊d * 1000⌋
  else if p = ['m', 'b'] ∨ p = ['m'] then some ⌊d * 1000000⌋
  else if p = ['g', 'b'] ∨ p = ['g'] then some ⌊d * 1000000000⌋
  else if p = ['k', 'i', 'b'] ∨ p = ['K'] then some ⌊d * 1024⌋
  else if p = ['m', 'i', 'b'] ∨ p = ['M'] then some ⌊d * 1048576⌋
  else if p = ['g', 'i', 'b'] ∨ p = ['G'] then some ⌊d * 1073741824⌋
  else none

def arg_size (tok : String) : Option ℤ := arg_size_chars tok.data

/-- The claim's suffix-multiplier table, one entry per accepted suffix. -/
def suffix_mult (sfx : List Char) : Option ℚ :=
  if sfx = [] then some 1
  else if sfx = ['k', 'b'] ∨ sfx = ['k'] then some 1000
  else if sfx = ['m', 'b'] ∨ sfx = ['m'] then some 1000000
  else if sfx = ['g', 'b'] ∨ sfx = ['g'] then some 1000000000
  else if sfx = ['k', 'i', 'b'] ∨ sfx = ['K'] then some 1024
  else if sfx = ['m', 'i', 'b'] ∨ sfx = ['M'] then some 1048576
  else if sfx = ['g', 'i', 'b'] ∨ sfx = ['G'] then some 1073741824
  else none

theorem takeWhile_digits_append (ds rest : List Char)
    (hds : ∀ c ∈ ds, c.isDigit = true)
    (hrest : ∀ c, rest.head? = some c → c.isDigit = false) :
    (ds ++ rest).takeWhile Char.isDigit = ds ∧
    (ds ++ rest).dropWhile Char.isDigit = rest := by
  induction ds with
  | nil =>
    simp only [List.nil_append]
    cases rest with
    | nil => simp
    | cons c cs =>
      have hc := hrest c rfl
      simp [List.takeWhile_cons, List.dropWhile_cons, hc]
  | cons d ds ih =>
    have hd : d.isDigit = true := hds d (by simp)
    have hds2 : ∀ c ∈ ds, c.isDigit = true := fun c hc => hds c (by simp [hc])
    obtain ⟨h1, h2⟩ := ih hds2
    simp [List.takeWhile_cons, List.dropWhile_cons, hd, h1, h2]

theorem strtold_num_int (ds sfx : List Char) (hne : ds ≠ [])
    (hds : ∀ c ∈ ds, c.isDigit = true)
    (hs : ∀ c, sfx.head? = some c → c.isDigit = false ∧ c ≠ '.') :
    strtold_num (ds ++ sfx) = ((digitsVal ds : ℚ), sfx) := by
  obtain ⟨ht, hd⟩ :=
    takeWhile_digits_append ds sfx hds (fun c hc => (hs c hc).1)
  have hdot : ¬ (sfx.head? = some '.') := by
    cases sfx with
    | nil => simp
    | cons c cs =>
      have := (hs c rfl).2
      simp [this]
  simp [strtold_num, ht, hd, hdot, hne]

theorem strtold_num_frac (ds fs sfx : List Char) (hne : ds ≠ [])
    (hds : ∀ c ∈ ds, c.isDigit = true)
    (hfs : ∀ c ∈ fs, c.isDigit = true)
    (hs : ∀ c, sfx.head? = some c → c.isDigit = false ∧ c ≠ '.') :
    strtold_num (ds ++ '.' :: (fs ++ sfx))
      = ((digitsVal ds : ℚ) + (digitsVal fs : ℚ) / 10 ^ fs.length, sfx) := by
  obtain ⟨ht, hd⟩ := takeWhile_digits_append ds ('.' :: (fs ++ sfx)) hds
    (fun c hc => by
      simp only [List.head?_cons, Option.some.injEq] at hc
      subst hc
      decide)
  obtain ⟨ht2, hd2⟩ :=
    takeWhile_digits_append fs sfx hfs (fun c hc => (hs c hc).1)
  simp [strtold_num, ht, hd, ht2, hd2, hne]

theorem strtold_model_eq_num (cs : List Char)
    (h : ¬ (cs.head? = some '-')) : strtold_model cs = strtold_num cs := by
  simp [strtold_model, h]

theorem suffix_mult_shapes (sfx : List Char) (m : ℚ)
    (hm : suffix_mult sfx = some m) :
    sfx = [] ∨ sfx = ['k', 'b'] ∨ sfx = ['k'] ∨ sfx = ['m', 'b'] ∨
    sfx = ['m'] ∨ sfx = ['g', 'b'] ∨ sfx = ['g'] ∨
    sfx = ['k', 'i', 'b'] ∨ sfx = ['K'] ∨ sfx = ['m', 'i', 'b'] ∨
    sfx = ['M'] ∨ sfx = ['g', 'i', 'b'] ∨ sfx = ['G'] := by
  unfold suffix_mult at hm
  split_ifs at hm with g1 g2 g3 g4 g5 g6 g7
  · exact Or.inl g1
  · tauto
  · tauto
  · tauto
  · tauto
  · tauto
  · tauto

theorem suffix_mult_head (sfx : List Char) (m : ℚ)
    (hm : suffix_mult sfx = some m) :
    ∀ c, sfx.head? = some c → c.isDigit = false ∧ c ≠ '.' := by
  have hset := suffix_mult_shapes sfx m hm
  rcases hset with h | h | h | h | h | h | h | h | h | h | h | h | h <;>
    subst h
  · intro c hc; simp at hc
  all_goals (intro c hc; simp at hc; subst hc; decide)

theorem arg_size_eval (num sfx : List Char) (q m : ℚ)
    (hq : strtold_model (num ++ sfx) = (q, sfx)) (hq0 : 0 ≤ q)
    (hm : suffix_mult sfx = some m) :
    arg_size_chars (num ++ sfx) = some ⌊q * m⌋ := by
  have hq' : ¬ (q < 0) := not_lt.mpr hq0
  unfold arg_size_chars
  rw [hq]
  simp only
  rw [if_neg hq']
  unfold suffix_mult at hm
  split_ifs at hm ⊢
  any_goals simp_all
  all_goals (rw [← hm]; simp)

/-- Claim C7: arg_size parses its token as a non-negative (possibly
fractional) decimal number with an optional suffix; lowercase k/m/g and
kb/mb/gb multiply by powers of 1000, uppercase K/M/G and kib/mib/gib by
powers of 1024, no suffix means bytes, and the result is truncated; in
particular `1k` parses to 1000, `1K` to 1024, `1.5G` to 1610612736 and
`1gb` to 1000000000. -/
theorem arg_size_parses :
    (∀ (ds fs sfx : List Char) (m : ℚ), ds ≠ [] →
      (∀ c ∈ ds, c.isDigit = true) → (∀ c ∈ fs, c.isDigit = true) →
      suffix_mult sfx = some m →
      arg_size_chars (ds ++ sfx) = some ⌊(digitsVal ds : ℚ) * m⌋ ∧
      arg_size_chars (ds ++ '.' :: (fs ++ sfx))
        = some ⌊((digitsVal ds : ℚ)
            + (digitsVal fs : ℚ) / 10 ^ fs.length) * m⌋) ∧
    arg_size "1k" = some 1000 ∧ arg_size "1K" = some 1024 ∧
    arg_size "1.5G" = some 1610612736 ∧ arg_size "1gb" = some 1000000000 := by
  have general : ∀ (ds fs sfx : List Char) (m : ℚ), ds ≠ [] →
      (∀ c ∈ ds, c.isDigit = true) → (∀ c ∈ fs, c.isDigit = true) →
      suffix_mult sfx = some m →
      arg_size_chars (ds ++ sfx) = some ⌊(digitsVal ds : ℚ) * m⌋ ∧
      arg_size_chars (ds ++ '.' :: (fs ++ sfx))
        = some ⌊((digitsVal ds : ℚ)
            + (digitsVal fs : ℚ) / 10 ^ fs.length) * m⌋ := by
    intro ds fs sfx m hne hds hfs hm
    have hhead := suffix_mult_head sfx m hm
    have hmark : ∀ rest : List Char, ¬ ((ds ++ rest).head? = some '-') := by
      intro rest hcon
      cases ds with
      | nil => exact hne rfl
      | cons d ds2 =>
        simp only [List.cons_append, List.head?_cons,
          Option.some.injEq] at hcon
        have := hds d (by simp)
        rw [hcon] at this
        simp at this
    constructor
    · exact arg_size_eval ds sfx _ m
        (by rw [strtold_model_eq_num _ (hmark sfx)]
            exact strtold_num_int ds sfx hne hds hhead)
        (by positivity) hm
    · have hshape : ds ++ '.' :: (fs ++ sfx) = (ds ++ '.' :: fs) ++ sfx := by
        simp
      rw [hshape]
      exact arg_size_eval (ds ++ '.' :: fs) sfx _ m
        (by rw [← hshape, strtold_model_eq_num _ (hmark ('.' :: (fs ++ sfx)))]
            exact strtold_num_frac ds fs sfx hne hds hfs hhead)
        (by positivity) hm
  refine ⟨general, ?_, ?_, ?_, ?_⟩
  · have h := (general ['1'] [] ['k'] 1000 (by decide) (by decide)
      (by decide) (by decide)).1
    have d1 : digitsVal ['1'] = 1 := by decide
    calc arg_size "1k" = arg_size_chars (['1'] ++ ['k']) := rfl
      _ = some ⌊(digitsVal ['1'] : ℚ) * 1000⌋ := h
      _ = some 1000 := by rw [d1]; norm_num
  · have h := (general ['1'] [] ['K'] 1024 (by decide) (by decide)
      (by decide) (by decide)).1
    have d1 : digitsVal ['1'] = 1 := by decide
    calc arg_size "1K" = arg_size_chars (['1'] ++ ['K']) := rfl
      _ = some ⌊(digitsVal ['1'] : ℚ) * 1024⌋ := h
      _ = some 1024 := by rw [d1]; norm_num
  · have h := (general ['1'] ['5'] ['G'] 1073741824 (by decide) (by decide)
      (by decide) (by decide)).2
    have d1 : digitsVal ['1'] = 1 := by decide
    have d5 : digitsVal ['5'] = 5 := by decide
    calc arg_size "1.5G" = arg_size_chars (['1'] ++ '.' :: (['5'] ++ ['G']))
        := rfl
      _ = some ⌊((digitsVal ['1'] : ℚ)
            + (digitsVal ['5'] : ℚ) / 10 ^ (['5'] : List Char).length)
              * 1073741824⌋ := h
      _ = some 1610612736 := by rw [d1, d5]; norm_num
  · have h := (general ['1'] [] ['g', 'b'] 1000000000 (by decide)
      (by decide) (by decide) (by decide)).1
    have d1 : digitsVal ['1'] = 1 := by decide
    calc arg_size "1gb" = arg_size_chars (['1'] ++ ['g', 'b']) := rfl
      _ = some ⌊(digitsVal ['1'] : ℚ) * 1000000000⌋ := h
      _ = some 1000000000 := by rw [d1]; norm_num

/-- Witness for C7: the general suffix rule applied to the token `2.25M`. -/
theorem arg_size_parses_witness :
    (['2'] : List Char) ≠ [] ∧
    (∀ c ∈ (['2'] : List Char), c.isDigit = true) ∧
    (∀ c ∈ (['2', '5'] : List Char), c.isDigit = true) ∧
    suffix_mult ['M'] = some 1048576 ∧
    (arg_size_chars (['2'] ++ ['M'])
        = some ⌊(digitsVal ['2'] : ℚ) * 1048576⌋ ∧
      arg_size_chars (['2'] ++ '.' :: (['2', '5'] ++ ['M']))
        = some ⌊((digitsVal ['2'] : ℚ)
            + (digitsVal ['2', '5'] : ℚ)
              / 10 ^ (['2', '5'] : List Char).length) * 1048576⌋) :=
  ⟨by decide, by decide, by decide, by decide,
    arg_size_parses.1 ['2'] ['2', '5'] ['M'] 1048576 (by decide) (by decide)
      (by decide) (by decide)⟩

/-! ## commify and nice_1024 (qperf.c lines 2715-2759, 2271-2293)

commify walks the integer digit run that ends the string (or precedes a
trailing decimal part) and inserts a comma every three digits from the
right; with unify-units on it returns the string unchanged.  nice_1024
divides a multiple of 1024 down while the quotient stays at or above 1024
(at most to the TiB rung) and fails if an intermediate quotient is not a
multiple; on success it emits the quotient, the unit, and the commified
original count. -/

/-- Comma insertion over the reversed digit run: a comma after every third
digit except at the far end. -/
def insertCommasRev : List Char → ℕ → List Char
  | [], _ => []
  | c :: cs, n =>
    if (n + 1) % 3 = 0 ∧ cs ≠ [] then c :: ',' :: insertCommasRev cs (n + 1)
    else c :: insertCommasRev cs (n + 1)

/-- commify (qperf.c lines 2715-2759). -/
def commify (unify : Bool) (s : String) : String :=
  if unify then s
  else
    let rev := s.data.reverse
    let run1 := rev.takeWhile Char.isDigit
    let rest1 := rev.dropWhile Char.isDigit
    if rest1.head? = some '.' then
      let rest2 := rest1.tail
      let intRun := rest2.takeWhile Char.isDigit
      let pre := rest2.dropWhile Char.isDigit
      String.mk ((run1 ++ '.' :: insertCommasRev intRun 0 ++ pre).reverse)
    else
      String.mk ((insertCommasRev run1 0 ++ rest1).reverse)

def nice_tab : List String := ["KiB", "MiB", "GiB", "TiB"]

/-- The division loop of nice_1024 (qperf.c lines 2283-2288); `fuel` is
the number of rungs still available above the current one. -/
def nice_loop : ℕ → ℤ → ℕ → Option (ℤ × ℕ)
  | 0, val, n => some (val, n)
  | fuel + 1, val, n =>
    if 1024 ≤ val then
      if val % 1024 ≠ 0 then none
      else nice_loop fuel (val / 1024) (n + 1)
    else some (val, n)

/-- nice_1024 (qperf.c lines 2271-2293): `none` models returning 0 without
placing a row; `some (data, unit, altn)` models the placed row. -/
def nice_1024 (unify : Bool) (value : ℤ) :
    Option (String × String × String) :=
  if value < 1024 ∨ value % 1024 ≠ 0 then none
  else
    match nice_loop 3 (value / 1024) 0 with
    | none => none
    | some (val, n) =>
      some (commify unify (toString val), nice_tab.getD n "",
        commify unify (toString value))

/-- Counterexample to claim C8: 1536000 = 1500 * 1024 is a nonzero
multiple of 1024^1, yet nice_1024 presents nothing for it, because the
quotient 1500 is at least 1024 but not itself a multiple of 1024. -/
theorem nice_1024_multiple_not_presented :
    (1536000 : ℤ) = 1500 * 1024 ∧ (1536000 : ℤ) ≠ 0 ∧
    nice_1024 false 1536000 = none := by
  refine ⟨by norm_num, by norm_num, ?_⟩
  decide

theorem nice_loop_exact (q : ℤ) (h1 : 0 < q) (h2 : q < 1024) :
    ∀ (j : ℕ) (fuel n : ℕ), j ≤ fuel →
      nice_loop fuel (q * 1024 ^ j) n = some (q, n + j) := by
  intro j
  induction j with
  | zero =>
    intro fuel n _
    cases fuel with
    | zero => simp [nice_loop]
    | succ f =>
      have hlt : ¬ (1024 : ℤ) ≤ q := by omega
      simp [nice_loop, hlt]
  | succ j ih =>
    intro fuel n hle
    obtain ⟨f, rfl⟩ : ∃ f, fuel = f + 1 := ⟨fuel - 1, by omega⟩
    have hpow : (0 : ℤ) < 1024 ^ j := by positivity
    have hge : 1024 ≤ q * 1024 ^ (j + 1) := by
      have h3 : (1024 : ℤ) ^ (j + 1) ≤ q * 1024 ^ (j + 1) := by
        have : (0 : ℤ) ≤ 1024 ^ (j + 1) := by positivity
        nlinarith
      have h4 : (1024 : ℤ) ≤ 1024 ^ (j + 1) := by
        calc (1024 : ℤ) = 1024 ^ 1 := (pow_one _).symm
          _ ≤ 1024 ^ (j + 1) := by
            apply pow_le_pow_right₀ (by norm_num)
            omega
      omega
    have hdvd : (1024 : ℤ) ∣ q * 1024 ^ (j + 1) := by
      apply Dvd.dvd.mul_left
      exact dvd_pow_self 1024 (Nat.succ_ne_zero j)
    have hmod : q * 1024 ^ (j + 1) % 1024 = 0 := by
      obtain ⟨c, hc⟩ := hdvd
      rw [hc]
      exact Int.mul_emod_right 1024 c
    have hdiv : q * 1024 ^ (j + 1) / 1024 = q * 1024 ^ j := by
      rw [pow_succ, ← mul_assoc]
      exact Int.mul_ediv_cancel _ (by norm_num)
    have hrec := ih f (n + 1) (by omega)
    simp [nice_loop, hge, hmod, hdiv, hrec]
    omega

/-- Claim C8 as amended: nice_1024 presents q * 1024^k (with 0 < q < 1024
and 1 ≤ k ≤ 4) as the quotient q with unit KiB/MiB/GiB/TiB and the
commified original count as the alternative; in particular nice_1024
2097152 gives 2 MiB with alternative 2,097,152.  Not every nonzero
multiple of a power of 1024 is presented: see the counterexample at
1536000, whose quotient 1500 is rejected by the loop. -/
theorem nice_1024_exact (q : ℤ) (k : ℕ) (h1 : 0 < q) (h2 : q < 1024)
    (h3 : 1 ≤ k) (h4 : k ≤ 4) :
    nice_1024 false (q * 1024 ^ k)
      = some (commify false (toString q), nice_tab.getD (k - 1) "",
          commify false (toString (q * 1024 ^ k))) ∧
    nice_1024 false 2097152 = some ("2", "MiB", "2,097,152") := by
  constructor
  · obtain ⟨j, rfl⟩ : ∃ j, k = j + 1 := ⟨k - 1, by omega⟩
    have hge : 1024 ≤ q * 1024 ^ (j + 1) := by
      have h5 : (1024 : ℤ) ^ (j + 1) ≤ q * 1024 ^ (j + 1) := by
        have : (0 : ℤ) ≤ 1024 ^ (j + 1) := by positivity
        nlinarith
      have h6 : (1024 : ℤ) ≤ 1024 ^ (j + 1) := by
        calc (1024 : ℤ) = 1024 ^ 1 := (pow_one _).symm
          _ ≤ 1024 ^ (j + 1) := by
            apply pow_le_pow_right₀ (by norm_num)
            omega
      omega
    have hdvd : (1024 : ℤ) ∣ q * 1024 ^ (j + 1) := by
      apply Dvd.dvd.mul_left
      exact dvd_pow_self 1024 (Nat.succ_ne_zero j)
    have hmod : q * 1024 ^ (j + 1) % 1024 = 0 := by
      obtain ⟨c, hc⟩ := hdvd
      rw [hc]
      exact Int.mul_emod_right 1024 c
    have hdiv : q * 1024 ^ (j + 1) / 1024 = q * 1024 ^ j := by
      rw [pow_succ, ← mul_assoc]
      exact Int.mul_ediv_cancel _ (by norm_num)
    have hcond : ¬ (q * 1024 ^ (j + 1) < 1024 ∨
        q * 1024 ^ (j + 1) % 1024 ≠ 0) := by
      push_neg
      exact ⟨by omega, hmod⟩
    have hloop := nice_loop_exact q h1 h2 j 3 0 (by omega)
    simp only [nice_1024, hcond, if_false, hdiv, hloop, Nat.zero_add,
      Nat.add_sub_cancel]
  · decide

/-- Witness for C8 at q = 2, k = 2, the 2-MiB example. -/
theorem nice_1024_exact_witness :
    (0 : ℤ) < 2 ∧ (2 : ℤ) < 1024 ∧ 1 ≤ 2 ∧ 2 ≤ 4 ∧
    (nice_1024 false (2 * 1024 ^ 2)
        = some (commify false (toString (2 : ℤ)), nice_tab.getD (2 - 1) "",
            commify false (toString ((2 : ℤ) * 1024 ^ 2))) ∧
      nice_1024 false 2097152 = some ("2", "MiB", "2,097,152")) :=
  ⟨by norm_num, by norm_num, by norm_num, by norm_num,
    nice_1024_exact 2 2 (by norm_num) (by norm_num) (by norm_num)
      (by norm_num)⟩

/-! ## get_times parsing of /proc/stat (qperf.c lines 2665-2695)

The function puts the times() result in slot 0, checks the buffer starts
with `cpu `, then parses slots 1 to T_N-1.  At each slot it skips spaces;
a digit starts a strtoll parse followed by a skip to the next space or
newline; a non-digit is fatal unless it is a newline at the very last
slot, in which case the loop breaks and the remaining slots are
zero-filled. -/

/-- The space-skipping loop (qperf.c lines 2682-2683). -/
def skipSpaces : List Char → List Char
  | [] => []
  | c :: cs => if c = ' ' then skipSpaces cs else c :: cs

/-- The token-skipping loop (qperf.c lines 2690-2691): advance to the next
space, newline or end of buffer. -/
def dropTok : List Char → List Char
  | [] => []
  | c :: cs => if c = ' ' ∨ c = '\n' then c :: cs else dropTok cs

/-- The field loop of get_times (qperf.c lines 2681-2694) for the last `k`
slots; the newline break is allowed only at the final slot, and the
zero-fill loop fills the slots that remain. -/
def get_times_fields : ℕ → List Char → Option (List ℕ)
  | 0, _ => some []
  | k + 1, cs =>
    match skipSpaces cs with
    | [] => none
    | c :: rest =>
      if c.isDigit then
        match get_times_fields k (dropTok (c :: rest)) with
        | none => none
        | some vs => some (digitsVal ((c :: rest).takeWhile Char.isDigit) :: vs)
      else if c = '\n' ∧ k = 0 then some (List.replicate (k + 1) 0)
      else none

/-- get_times (qperf.c lines 2665-2695) on the buffer text; `realTicks` is
the times() result stored in slot 0 and `none` models error_die. -/
def get_times (realTicks : ℕ) (buf : String) : Option (List ℕ) :=
  if buf.data.take 4 ≠ ['c', 'p', 'u', ' '] then none
  else
    match get_times_fields (T_N - 1) (buf.data.drop 3) with
    | none => none
    | some vs => some (realTicks :: vs)

/-- The first line of /proc/stat with the given whitespace-separated
integer fields. -/
def mkCpuLine (runs : List (List Char)) : List Char :=
  ['c', 'p', 'u'] ++ (runs.map (fun r => ' ' :: r)).flatten ++ ['\n']

/-- Counterexample to claim C9: a `cpu ` line of six whitespace-separated
integers is rejected (error_die) instead of having its two missing
trailing fields zero-filled; only a line missing exactly the last field is
zero-filled. -/
theorem get_times_two_missing_fields_fatal :
    get_times 0 "cpu 1 2 3 4 5 6\n" = none ∧
    get_times 0 "cpu 1 2 3 4 5 6 7\n" = some [0, 1, 2, 3, 4, 5, 6, 7, 0] ∧
    get_times 0 "cpu 1 2 3 4 5 6 7 8\n"
      = some [0, 1, 2, 3, 4, 5, 6, 7, 8] := by
  refine ⟨by decide, by decide, by decide⟩

theorem digit_ne_delims (c : Char) (h : c.isDigit = true) :
    c ≠ ' ' ∧ c ≠ '\n' := by
  constructor <;> intro he <;> subst he <;> simp at h

theorem dropTok_digits_append (r X : List Char)
    (hr : ∀ c ∈ r, c.isDigit = true)
    (hX : X.head? = some ' ' ∨ X.head? = some '\n') :
    dropTok (r ++ X) = X := by
  induction r with
  | nil =>
    cases X with
    | nil => simp at hX
    | cons c cs =>
      simp only [List.head?_cons, Option.some.injEq] at hX
      rcases hX with h | h <;> subst h <;> simp [dropTok]
  | cons c r ih =>
    have hc := digit_ne_delims c (hr c (by simp))
    have hr2 : ∀ x ∈ r, x.isDigit = true := fun x hx => hr x (by simp [hx])
    simp [dropTok, hc.1, hc.2, ih hr2]

theorem skipSpaces_nonspace (c : Char) (cs : List Char) (h : ¬ c = ' ') :
    skipSpaces (c :: cs) = c :: cs := by simp [skipSpaces, h]

theorem get_times_fields_digit_step (k : ℕ) (c : Char) (tail : List Char)
    (hc : c.isDigit = true) :
    get_times_fields (k + 1) (' ' :: c :: tail)
      = match get_times_fields k (dropTok (c :: tail)) with
        | none => none
        | some vs =>
          some (digitsVal ((c :: tail).takeWhile Char.isDigit) :: vs) := by
  have hcs := digit_ne_delims c hc
  have h1 : skipSpaces (' ' :: c :: tail) = c :: tail := by
    simp [skipSpaces, hcs.1]
  simp only [get_times_fields, h1]
  simp [hc]

theorem get_times_fields_runs :
    ∀ (runs : List (List Char)) (k : ℕ),
      (∀ r ∈ runs, r ≠ [] ∧ ∀ c ∈ r, c.isDigit = true) →
      runs.length ≤ k →
      get_times_fields k ((runs.map (fun r => ' ' :: r)).flatten ++ ['\n'])
        = if runs.length = k then some (runs.map digitsVal)
          else if runs.length + 1 = k then some (runs.map digitsVal ++ [0])
          else none := by
  intro runs
  induction runs with
  | nil =>
    intro k _ _
    have hskip : skipSpaces ['\n'] = ['\n'] := by decide
    have hd : Char.isDigit '\n' = false := by decide
    match k with
    | 0 => simp [get_times_fields]
    | 1 => simp [get_times_fields, hskip, hd, List.replicate]
    | k + 2 => simp [get_times_fields, hskip, hd]
  | cons r rs ih =>
    intro k hr hlen
    have hlen2 : rs.length + 1 ≤ k := by simpa using hlen
    obtain ⟨k2, rfl⟩ : ∃ k2, k = k2 + 1 := ⟨k - 1, by omega⟩
    obtain ⟨hne, hdig⟩ := hr r (by simp)
    have hrs : ∀ x ∈ rs, x ≠ [] ∧ ∀ c ∈ x, c.isDigit = true :=
      fun x hx => hr x (by simp [hx])
    obtain ⟨c, r2, rfl⟩ : ∃ c r2, r = c :: r2 := by
      cases r with
      | nil => exact absurd rfl hne
      | cons c r2 => exact ⟨c, r2, rfl⟩
    have hc : c.isDigit = true := hdig c (by simp)
    have hXhead : (((rs.map (fun r => ' ' :: r)).flatten ++ ['\n']).head?
        = some ' ' ∨
        ((rs.map (fun r => ' ' :: r)).flatten ++ ['\n']).head?
        = some '\n') := by
      cases rs with
      | nil => simp
      | cons r3 rs2 => simp
    have hstep : (((c :: r2) :: rs).map (fun r => ' ' :: r)).flatten ++ ['\n']
        = ' ' :: c :: (r2 ++
            ((rs.map (fun r => ' ' :: r)).flatten ++ ['\n'])) := by
      simp
    have htake := takeWhile_digits_append (c :: r2)
      ((rs.map (fun r => ' ' :: r)).flatten ++ ['\n']) hdig
      (by
        intro x hx
        rcases hXhead with h | h <;> rw [h] at hx <;>
          simp only [Option.some.injEq] at hx <;> subst hx <;> decide)
    have htake2 : (c :: (r2 ++ ((rs.map (fun r => ' ' :: r)).flatten
        ++ ['\n']))).takeWhile Char.isDigit = c :: r2 := by
      simpa using htake.1
    have hdrop := dropTok_digits_append (c :: r2)
      ((rs.map (fun r => ' ' :: r)).flatten ++ ['\n']) hdig hXhead
    have hdrop2 : dropTok (c :: (r2 ++ ((rs.map (fun r => ' ' :: r)).flatten
        ++ ['\n']))) = (rs.map (fun r => ' ' :: r)).flatten ++ ['\n'] := by
      simpa using hdrop
    have hrec := ih k2 hrs (by omega)
    rw [hstep, get_times_fields_digit_step k2 c _ hc, hdrop2, hrec, htake2]
    by_cases h1 : rs.length = k2
    · simp [h1]
    · by_cases h2 : rs.length + 1 = k2
      · simp [h1, h2]
      · simp [h1, h2]

/-- Claim C9 as amended: for a first line of `cpu ` followed by
whitespace-separated non-negative integers, get_times parses the eight
fields into slots 1..T_N-1; when exactly the last field is missing, that
single slot is zero-filled; when two or more trailing fields are missing,
get_times fails (error_die) instead of zero-filling. -/
theorem get_times_parse (rt : ℕ) (runs : List (List Char))
    (h : ∀ r ∈ runs, r ≠ [] ∧ ∀ c ∈ r, c.isDigit = true) :
    (runs.length = 8 → get_times rt (String.mk (mkCpuLine runs))
      = some (rt :: runs.map digitsVal)) ∧
    (runs.length = 7 → get_times rt (String.mk (mkCpuLine runs))
      = some (rt :: (runs.map digitsVal ++ [0]))) ∧
    (runs.length ≤ 6 → get_times rt (String.mk (mkCpuLine runs))
      = none) := by
  cases runs with
  | nil =>
    exact ⟨fun h8 => by simp at h8, fun h7 => by simp at h7, fun _ => rfl⟩
  | cons r0 rs0 =>
    have hX : (((r0 :: rs0).map (fun r => ' ' :: r)).flatten ++ ['\n'])
        = ' ' :: (r0 ++ ((rs0.map (fun r => ' ' :: r)).flatten ++ ['\n']))
        := by simp
    have hmain : ∀ res,
        get_times_fields 8
          (((r0 :: rs0).map (fun r => ' ' :: r)).flatten ++ ['\n']) = res →
        get_times rt (String.mk (mkCpuLine (r0 :: rs0)))
          = match res with
            | none => none
            | some vs => some (rt :: vs) := by
      intro res hres
      rw [hX] at hres
      have hdata : (String.mk (mkCpuLine (r0 :: rs0))).data
          = mkCpuLine (r0 :: rs0) := rfl
      have hline : mkCpuLine (r0 :: rs0)
          = 'c' :: 'p' :: 'u' :: ' ' ::
            (r0 ++ ((rs0.map (fun r => ' ' :: r)).flatten ++ ['\n'])) := by
        simp [mkCpuLine]
      have ht : ('c' :: 'p' :: 'u' :: ' ' ::
          (r0 ++ ((rs0.map (fun r => ' ' :: r)).flatten ++ ['\n']))).take 4
          = ['c', 'p', 'u', ' '] := rfl
      have hd : ('c' :: 'p' :: 'u' :: ' ' ::
          (r0 ++ ((rs0.map (fun r => ' ' :: r)).flatten ++ ['\n']))).drop 3
          = ' ' :: (r0 ++ ((rs0.map (fun r => ' ' :: r)).flatten ++ ['\n']))
          := rfl
      unfold get_times T_N
      rw [hdata, hline, ht, hd, hres]
      simp
    refine ⟨fun h8 => ?_, fun h7 => ?_, fun h6 => ?_⟩
    · have hget := get_times_fields_runs (r0 :: rs0) 8 h (by omega)
      rw [if_pos h8] at hget
      rw [hmain _ hget]
    · have hget := get_times_fields_runs (r0 :: rs0) 8 h (by omega)
      rw [if_neg (by omega), if_pos (by omega)] at hget
      rw [hmain _ hget]
    · have hget := get_times_fields_runs (r0 :: rs0) 8 h (by omega)
      rw [if_neg (by omega), if_neg (by omega)] at hget
      rw [hmain _ hget]

/-- Witness for C9: the line `cpu 1 2 3 4 5 6 7` (seven fields) parses
with the one missing steal field zero-filled, under the amended rule. -/
theorem get_times_parse_witness :
    (∀ r ∈ ([['1'], ['2'], ['3'], ['4'], ['5'], ['6'], ['7']] :
        List (List Char)), r ≠ [] ∧ ∀ c ∈ r, c.isDigit = true) ∧
    (([['1'], ['2'], ['3'], ['4'], ['5'], ['6'], ['7']] :
        List (List Char)).length = 7 →
      get_times 3 (String.mk (mkCpuLine
          [['1'], ['2'], ['3'], ['4'], ['5'], ['6'], ['7']]))
        = some (3 :: (([['1'], ['2'], ['3'], ['4'], ['5'], ['6'], ['7']] :
            List (List Char)).map digitsVal ++ [0]))) :=
  ⟨by decide,
    (get_times_parse 3 [['1'], ['2'], ['3'], ['4'], ['5'], ['6'], ['7']]
      (by decide)).2.1⟩

end Qperf
